import Mathlib

/-!
Verification development for the Digole touch-screen display driver
(`digole.py`).  The Python source is shallowly embedded: byte strings
become `List Nat` (each element a byte value 0–255, or a two-byte integer
0–65535 in the response queue), the I2C side effects of `_write` become an
explicit list of `Action`s, the recording buffer (`io.BytesIO`) becomes an
optional pair of buffer contents and stream position, and the response
correlator `doCheck` becomes a state-passing function over the pending
queue (`_waitBuffer`) and the raw-value queue (`_inBuffer`).

Python exceptions (`OverflowError` from `int.to_bytes`, exceptions of the
`stopRecording` stream handler) are modelled with `Option`/`Except`.
Recursion that the Python runtime bounds dynamically is modelled with an
explicit fuel argument that provably dominates the dynamic depth, keeping
every definition computable by the kernel.
-/

namespace Digole

/-! ### Command encoder (`_sendCommand`, lines 122–145) -/

/-- Encoding of the UTF-8 bytes of a string, as `str.encode("utf-8")`
produces them; `String.utf8EncodeChar` is exactly the UTF-8 encoding of a
single character. -/
def utf8Bytes (s : String) : List Nat :=
  (s.data.flatMap fun c => String.utf8EncodeChar c).map fun b => b.toNat

/-- Model of Python's `arg.to_bytes(1, "big")`: one byte when
`0 ≤ arg < 256`, otherwise an `OverflowError`, modelled as `none`. -/
def toBytes1 (n : Int) : Option (List Nat) :=
  if 0 ≤ n ∧ n < 256 then some [n.toNat] else none

/-- Bytes produced for an `int` argument by `_sendCommand` (lines
131–136): `if arg >= 255: command += b'\xff'; arg -= 255` — note the
single `if`, not a loop — followed by `command += arg.to_bytes(1, "big")`. -/
def encodeInt (arg : Int) : Option (List Nat) :=
  if 255 ≤ arg then (toBytes1 (arg - 255)).map fun b => 255 :: b
  else toBytes1 arg

/-- Argument values that can be passed to `_sendCommand`.  The
constructors mirror the exact type tests of the source: `type(arg) is
bytes`, `type(arg) is int`, `arg is None`, and the final `else` branch
(strings, and every other value after coercion by `str`).  A Python
`bool` is a distinct constructor because `type(True) is int` is `False`:
`bool` is a subclass, and the source uses the exact-type test. -/
inductive PyVal where
  | vbytes (bs : List Nat)
  | vint (n : Int)
  | vnone
  | vstr (s : String)
  | vbool (b : Bool)
deriving DecidableEq

/-- Bytes contributed by one argument in the loop of `_sendCommand`
(lines 127–144).  `vbool` reaches the `else` branch of the source, where
`str(arg)` yields `"True"` or `"False"` and a single zero byte is
appended, exactly as for any other non-`bytes`, non-`int`, non-`None`
value. -/
def encodeArg : PyVal → Option (List Nat)
  | .vbytes bs => some bs
  | .vint n => encodeInt n
  | .vnone => some []
  | .vstr s => some (utf8Bytes s ++ [0])
  | .vbool b => some (utf8Bytes (if b then "True" else "False") ++ [0])

/-- The accumulation loop of `_sendCommand`: the opcode bytes are the
initial accumulator and each argument's bytes are appended in order; a
failing argument (`OverflowError`) aborts the command. -/
def sendCommand : List Nat → List PyVal → Option (List Nat)
  | command, [] => some command
  | command, arg :: rest =>
    match encodeArg arg with
    | some bs => sendCommand (command ++ bs) rest
    | none => none

/-! ### Chunked writer (`_write`, lines 50–64) and paced bulk transfer -/

/-- Observable transport actions of the writer: a `writeto` call on the
I2C bus, or a `sleep_ms` pause. -/
inductive Action where
  | write (v : List Nat)
  | sleep (ms : Nat)
deriving DecidableEq

/-- The successive slices `v[i:i+size]` for `i = 0, size, 2*size, …`, as
produced by `range(0, len(v), size)`.  The fuel argument dominates the
number of loop iterations; `slices` instantiates it with `v.length`,
which suffices for any `size ≥ 1`. -/
def slicesAux (size : Nat) : Nat → List Nat → List (List Nat)
  | 0, _ => []
  | fuel + 1, v =>
    if v.isEmpty then [] else v.take size :: slicesAux size fuel (v.drop size)

/-- Slicing a byte sequence into pieces of at most `size` bytes. -/
def slices (size : Nat) (v : List Nat) : List (List Nat) :=
  slicesAux size v.length v

/-- Actions performed by `_write(v)` (lines 50–64): if `len(v) > 64` the
sequence is cut into 64-byte slices, each passed recursively to `_write`
and followed by `sleep_ms(self.dataDelay)`; otherwise a single
`i2c.writeto` of `v` itself.  The fuel dominates the recursion depth
(which is at most 2, every slice being at most 64 bytes); `writeActs`
instantiates it with `v.length + 1`. -/
def writeAux (delay : Nat) : Nat → List Nat → List Action
  | 0, _ => []
  | fuel + 1, v =>
    if 64 < v.length then
      (slices 64 v).flatMap fun s => writeAux delay fuel s ++ [Action.sleep delay]
    else [Action.write v]

/-- Actions performed by one call of `_write` with inter-segment delay
`delay` (the `dataDelay` attribute, default 5 ms). -/
def writeActs (delay : Nat) (v : List Nat) : List Action :=
  writeAux delay (v.length + 1) v

/-- The transport writes among a list of actions, in order. -/
def writesOf (acts : List Action) : List (List Nat) :=
  acts.filterMap fun a =>
    match a with
    | .write v => some v
    | .sleep _ => none

/-- Actions of `_sendFile` (lines 155–164): the file contents are read in
128-byte pieces, each passed to `_write`. -/
def sendFileActs (delay : Nat) (v : List Nat) : List Action :=
  (slices 128 v).flatMap (writeActs delay)

/-- Actions of `_sendLargeFileSlowly` (lines 167–184) together with the
final value of `dataDelay`.  The source saves `dataDelay`, sets it to 40,
writes `bytes([size//256, size % 256])`, sleeps 200 ms, sends the file
through `_sendFile`, then writes `b'\ff'` — which in Python is the TWO
bytes `0x0C` (form feed, from the escape `\f`) and `0x66` (`'f'`), not a
single `0xFF` byte — sleeps 40 ms, and restores `dataDelay`. -/
def sendLargeFileSlowly (stdDelay : Nat) (payload : List Nat) : List Action × Nat :=
  let size := payload.length
  (writeActs 40 [size / 256, size % 256]
      ++ [Action.sleep 200]
      ++ sendFileActs 40 payload
      ++ writeActs 40 [12, 102]
      ++ [Action.sleep 40],
    stdDelay)

/-! ### Instruction recorder (lines 75–114)

The `io.BytesIO` buffer `_paperTrail` is modelled as `some (buf, pos)`
while recording (buffer contents and stream position) and `none` while
idle. -/

/-- Recorder state: `none` while idle (`_paperTrail is None`), otherwise
the buffer contents and the stream position. -/
abbrev RecState := Option (List Nat × Nat)

/-- Model of `startRecording` (lines 80–84): a fresh empty buffer is
created only when not already recording. -/
def startRecording : RecState → RecState
  | none => some ([], 0)
  | some st => some st

/-- Model of `getRecordingSize` (lines 87–90): 0 when idle, else
`self._paperTrail.seek(0, 2)`, which returns the buffer length and moves
the stream position to the end. -/
def getRecordingSize : RecState → Nat × RecState
  | none => (0, none)
  | some (buf, _) => (buf.length, some (buf, buf.length))

/-- Model of the recording side effect of `_write` (lines 61–62):
`BytesIO.write(v)` overwrites at the current position and extends the
buffer, advancing the position. -/
def recordWrite : RecState → List Nat → RecState
  | none, _ => none
  | some (buf, pos), v =>
    some (buf.take pos ++ v ++ buf.drop (pos + v.length), pos + v.length)

/-- Model of `stopRecording` (lines 93–114).  The first component is the
returned value (`Except.error e` when the stream handler raises `e`):
`none` when called while idle, `Sum.inl` the full buffer contents
(`getvalue()`) when no handler is given, `Sum.inr` the buffer size when a
handler is given.  The handler is invoked with the readable contents from
offset 0 (the source does `seek(0, 0)` first).  The second component is
the recorder state afterwards; the `try/finally` of the source closes and
releases the buffer on every path, including when the handler raises, so
it is `none` in every case. -/
def stopRecording (st : RecState)
    (streamHandler : Option (List Nat → Except Nat Unit)) :
    Except Nat (Option (Sum (List Nat) Nat)) × RecState :=
  match st with
  | none => (Except.ok none, none)
  | some (buf, _) =>
    match streamHandler with
    | none => (Except.ok (some (Sum.inl buf)), none)
    | some handler =>
      match handler buf with
      | Except.ok _ => (Except.ok (some (Sum.inr buf.length)), none)
      | Except.error e => (Except.error e, none)

/-! ### Response correlator (`doCheck`, lines 861–912) -/

namespace EventCode

def CLICK : Nat := 1

def ANALOG : Nat := 2

def TEMP : Nat := 3

def VOLTAGE : Nat := 4

end EventCode

/-- One entry of `_waitBuffer`: the tuple
`(event_code, argCount, timeStamp)` appended by the read-triggering
operations (lines 822–844). -/
structure Entry where
  code : Nat
  argCount : Nat
  timeStamp : Nat
deriving DecidableEq

/-- A correlated event `(event_code, args)` as appended to `result`.
Arguments are rationals because the analog and temperature transforms
insert a derived non-integer reading; the source computes them in IEEE
double precision, which the claims under verification never evaluate. -/
abbrev Event := Nat × List ℚ

/-- Per-kind argument transform of `doCheck` (lines 894–904): the analog
kind prepends `args[0] * 2.5 / 4096` and the temperature kind prepends
`(653 - args[0] * 2500 / 4096) / 2.1`; the voltage (and any other
non-click) kind passes the raw values through.  The literals `2.5` and
`2.1` are `5/2` and `21/10`. -/
def transform (code : Nat) (args : List Nat) : List ℚ :=
  let qargs : List ℚ := args.map fun a => (a : ℚ)
  if code = EventCode.ANALOG then ((args.headI : ℚ) * (5 / 2) / 4096) :: qargs
  else if code = EventCode.TEMP then
    ((653 - (args.headI : ℚ) * 2500 / 4096) / (21 / 10)) :: qargs
  else qargs

/-- The walk over `_waitBuffer` of `doCheck` (lines 875–906), with CPython
`for` semantics made explicit: the iterator keeps an index `ii` into the
list object and the body mutates that same list.  Per examined entry:
if its age exceeds 2000 ms, `self._waitBuffer.pop(0)` removes the HEAD of
the current list (not necessarily the examined entry) and the walk
continues; else if fewer than `argCount` raw values are buffered, the
walk breaks; else `argCount` values are popped off the front of
`_inBuffer`, a click whose first value exceeds 1000 is rejected without
being emitted, and otherwise the transformed event is appended to the
result.  Note that a successfully correlated entry is NOT removed from
`wait`; only the timeout branch removes anything.  The fuel dominates
the number of iterations; `doCheck` instantiates it with `wait.length`,
which is exact: when the fuel runs out, `ii` already equals at least the
length of the (only ever shrinking) list, so the fuel-0 result coincides
with the loop's own exit. -/
def walkAux (now : Nat) : Nat → Nat → List Entry → List Nat → List Event →
    List Entry × List Nat × List Event
  | 0, _, wait, inBuf, res => (wait, inBuf, res)
  | fuel + 1, ii, wait, inBuf, res =>
    if h : ii < wait.length then
      let e := wait.get ⟨ii, h⟩
      if 2000 < now - e.timeStamp then
        walkAux now fuel (ii + 1) wait.tail inBuf res
      else if inBuf.length < e.argCount then
        (wait, inBuf, res)
      else if e.code = EventCode.CLICK ∧ 1000 < (inBuf.take e.argCount).headI then
        walkAux now fuel (ii + 1) wait (inBuf.drop e.argCount) res
      else
        walkAux now fuel (ii + 1) wait (inBuf.drop e.argCount)
          (res ++ [(e.code, transform e.code (inBuf.take e.argCount))])
    else (wait, inBuf, res)

/-- One poll of `doCheck` (lines 861–912).  `now` is the current tick
count; `wait` and `inBuf` are `_waitBuffer` and `_inBuffer` on entry;
`reads` are the raw two-byte integers the drain loop obtains from
`_readInt` before an `ETIMEDOUT` stops it (at most one per pending
entry).  The result is the new `_waitBuffer`, the new `_inBuffer` (reset
to `[]` when the pending queue ended up empty, lines 909–910), and the
returned event list. -/
def doCheck (now : Nat) (wait : List Entry) (inBuf reads : List Nat) :
    List Entry × List Nat × List Event :=
  match walkAux now wait.length 0 wait (inBuf ++ reads) [] with
  | (wait2, inBuf2, res) =>
    if wait2 = [] then (wait2, [], res) else (wait2, inBuf2, res)

/-! ### Helper lemmas -/

theorem slicesAux_flatten (size : Nat) (hs : 0 < size) :
    ∀ (fuel : Nat) (v : List Nat), v.length ≤ fuel →
      (slicesAux size fuel v).flatten = v := by
  intro fuel
  induction fuel with
  | zero =>
    intro v hv
    have : v = [] := List.eq_nil_of_length_eq_zero (Nat.le_zero.mp hv)
    simp [slicesAux, this]
  | succ n ih =>
    intro v hv
    by_cases he : v.isEmpty
    · simp [slicesAux, he]
      exact List.isEmpty_iff.mp he
    · have hne : v ≠ [] := by simpa [List.isEmpty_iff] using he
      have hlen : 0 < v.length := List.length_pos.mpr hne
      have : (v.drop size).length ≤ n := by
        simp only [List.length_drop]
        omega
      simp [slicesAux, he, ih (v.drop size) this]

theorem slicesAux_length_le (size : Nat) :
    ∀ (fuel : Nat) (v : List Nat), ∀ s ∈ slicesAux size fuel v, s.length ≤ size := by
  intro fuel
  induction fuel with
  | zero => intro v s hs; simp [slicesAux] at hs
  | succ n ih =>
    intro v s hs
    by_cases he : v.isEmpty
    · simp [slicesAux, he] at hs
    · simp only [slicesAux, he, if_neg] at hs
      rcases List.mem_cons.mp hs with h | h
      · subst h; simp [List.length_take]
      · exact ih (v.drop size) s h

theorem slices_flatten (size : Nat) (hs : 0 < size) (v : List Nat) :
    (slices size v).flatten = v :=
  slicesAux_flatten size hs v.length v le_rfl

theorem slices_length_le (size : Nat) (v : List Nat) :
    ∀ s ∈ slices size v, s.length ≤ size :=
  slicesAux_length_le size v.length v

theorem writeAux_small (delay fuel : Nat) (v : List Nat)
    (hf : 0 < fuel) (hv : v.length ≤ 64) :
    writeAux delay fuel v = [Action.write v] := by
  cases fuel with
  | zero => omega
  | succ n => simp [writeAux, Nat.not_lt.mpr hv]

theorem writesOf_append (a b : List Action) :
    writesOf (a ++ b) = writesOf a ++ writesOf b := by
  simp [writesOf]

theorem writesOf_writeActs (delay : Nat) (v : List Nat) :
    writesOf (writeActs delay v) = if 64 < v.length then slices 64 v else [v] := by
  by_cases hv : 64 < v.length
  · simp only [writeActs, writeAux, hv, if_pos, writesOf]
    rw [List.filterMap_flatMap]
    have : ∀ l : List (List Nat), (∀ s ∈ l, s.length ≤ 64) →
        (l.flatMap fun s =>
          (writeAux delay v.length s ++ [Action.sleep delay]).filterMap fun a =>
            match a with
            | .write w => some w
            | .sleep _ => none) = l := by
      intro l
      induction l with
      | nil => intro _; simp
      | cons s t ih =>
        intro hl
        have hs : s.length ≤ 64 := hl s (List.mem_cons_self s t)
        have hfuel : 0 < v.length := by omega
        rw [List.flatMap_cons, writeAux_small delay v.length s hfuel hs,
          ih fun x hx => hl x (List.mem_cons_of_mem s hx)]
        simp
    rw [this (slices 64 v) (slices_length_le 64 v)]
  · rw [writeActs, writeAux_small delay (v.length + 1) v (by omega) (by omega)]
    simp [writesOf, hv]

theorem recordWrite_atEnd (buf v : List Nat) :
    recordWrite (some (buf, buf.length)) v = some (buf ++ v, (buf ++ v).length) := by
  simp [recordWrite, List.take_length, List.drop_eq_nil_of_le (by omega : buf.length ≤ buf.length + v.length)]

theorem walkAux_emit (now fuel ii : Nat) (wait : List Entry) (inBuf : List Nat)
    (res : List Event) (h : ii < wait.length)
    (hfresh : now - (wait.get ⟨ii, h⟩).timeStamp ≤ 2000)
    (hlen : (wait.get ⟨ii, h⟩).argCount ≤ inBuf.length)
    (hclick : ¬((wait.get ⟨ii, h⟩).code = EventCode.CLICK ∧
        1000 < (inBuf.take (wait.get ⟨ii, h⟩).argCount).headI)) :
    walkAux now (fuel + 1) ii wait inBuf res =
      walkAux now fuel (ii + 1) wait (inBuf.drop (wait.get ⟨ii, h⟩).argCount)
        (res ++ [((wait.get ⟨ii, h⟩).code,
          transform (wait.get ⟨ii, h⟩).code (inBuf.take (wait.get ⟨ii, h⟩).argCount))]) := by
  simp only [walkAux, dif_pos h]
  rw [if_neg (by omega), if_neg (by omega), if_neg hclick]

theorem walkAux_reject (now fuel ii : Nat) (wait : List Entry) (inBuf : List Nat)
    (res : List Event) (h : ii < wait.length)
    (hfresh : now - (wait.get ⟨ii, h⟩).timeStamp ≤ 2000)
    (hlen : (wait.get ⟨ii, h⟩).argCount ≤ inBuf.length)
    (hclick : (wait.get ⟨ii, h⟩).code = EventCode.CLICK ∧
        1000 < (inBuf.take (wait.get ⟨ii, h⟩).argCount).headI) :
    walkAux now (fuel + 1) ii wait inBuf res =
      walkAux now fuel (ii + 1) wait (inBuf.drop (wait.get ⟨ii, h⟩).argCount) res := by
  simp only [walkAux, dif_pos h]
  rw [if_neg (by omega), if_neg (by omega), if_pos hclick]

theorem walkAux_break (now fuel ii : Nat) (wait : List Entry) (inBuf : List Nat)
    (res : List Event) (h : ii < wait.length)
    (hfresh : now - (wait.get ⟨ii, h⟩).timeStamp ≤ 2000)
    (hlen : inBuf.length < (wait.get ⟨ii, h⟩).argCount) :
    walkAux now (fuel + 1) ii wait inBuf res = (wait, inBuf, res) := by
  simp only [walkAux, dif_pos h]
  rw [if_neg (by omega), if_pos hlen]

theorem walkAux_stop (now fuel ii : Nat) (wait : List Entry) (inBuf : List Nat)
    (res : List Event) (h : wait.length ≤ ii) :
    walkAux now (fuel + 1) ii wait inBuf res = (wait, inBuf, res) := by
  simp only [walkAux]
  rw [dif_neg (by omega)]

end Digole

namespace Digole

/-! ### Claims -/

/-- C1 counterexample.  The claim demands, for every non-negative integer
argument, zero or more `0xFF` extension bytes and a final byte strictly
below 255 summing to the argument.  The source applies the extension at
most once (`if`, not a loop, line 133), so encoding 511 yields NO bytes
at all — `(511 - 255).to_bytes(1, "big")` raises `OverflowError` — and
encoding 510 emits `[0xFF, 0xFF]`, whose only reading as extensions plus
final byte has final byte 255, not strictly below 255. -/
theorem claim_C1_counterexample :
    encodeInt 511 = none ∧ encodeInt 510 = some [255, 255] := by
  constructor <;> rfl

/-- C1 (amended): for every integer `0 ≤ n ≤ 509`, the bytes emitted by
the integer encoder of `_sendCommand` are zero or more (in fact at most
one) `0xFF` extension bytes followed by exactly one final byte strictly
less than 255, such that 255 times the number of extension bytes plus the
final byte equals `n`; for `n ≥ 510` the single-`if` extension scheme of
the source no longer satisfies this. -/
theorem claim_C1_amended (n : Nat) (h : n ≤ 509) :
    ∃ k b : Nat, encodeInt (n : Int) = some (List.replicate k 255 ++ [b]) ∧
      b < 255 ∧ 255 * k + b = n := by
  rcases Nat.lt_or_ge n 255 with hn | hn
  · refine ⟨0, n, ?_, hn, by omega⟩
    have h1 : ¬(255 ≤ (n : Int)) := by exact_mod_cast Nat.not_le.mpr hn
    have h2 : (0 ≤ (n : Int) ∧ (n : Int) < 256) := by
      constructor
      · exact_mod_cast Nat.zero_le n
      · exact_mod_cast Nat.lt_of_lt_of_le hn (by omega)
    simp [encodeInt, toBytes1, h1, h2]
  · refine ⟨1, n - 255, ?_, by omega, by omega⟩
    have h1 : 255 ≤ (n : Int) := by exact_mod_cast hn
    have h2 : (0 ≤ (n : Int) - 255 ∧ (n : Int) - 255 < 256) := by
      constructor <;> [omega; (push_cast; omega)]
    have h3 : ((n : Int) - 255).toNat = n - 255 := by omega
    simp [encodeInt, toBytes1, h1, h2, h3]

/-- C1 witness: encoding 300 yields the extension byte `0xFF` and final
byte 45, with `255 * 1 + 45 = 300`. -/
theorem claim_C1_witness :
    ∃ k b : Nat, encodeInt ((300 : Nat) : Int) = some (List.replicate k 255 ++ [b]) ∧
      b < 255 ∧ 255 * k + b = 300 :=
  claim_C1_amended 300 (by omega)

/-- C2 evaluated at the failing input.  One pending voltage request of
arity 1 issued at tick 1000, one raw value 100 buffered, polled at tick
1000: the poll emits the event `(VOLTAGE, [100])` — the raw value IS
popped — but the pending entry is still in `_waitBuffer` when the poll
returns, because the source removes entries only in the timeout branch
(`pop(0)` at line 877); the successful-correlation path of lines 885–906
never removes anything.  The claim's removal guarantee is false on the
code. -/
theorem claim_C2_code_eval :
    doCheck 1000 [⟨EventCode.VOLTAGE, 1, 1000⟩] [100] [] =
      ([⟨EventCode.VOLTAGE, 1, 1000⟩], [], [(EventCode.VOLTAGE, [(100 : ℚ)])]) := by
  decide

/-- C3: for every byte sequence `v` and every inter-segment delay, the
transport writes performed by `_write(v)` are segments of at most 64
bytes whose in-order concatenation is exactly `v`, and when `v` is at
most 64 bytes a single `i2c.writeto` of `v` itself is performed. -/
theorem claim_C3 (delay : Nat) (v : List Nat) :
    (writesOf (writeActs delay v)).flatten = v ∧
    (∀ s ∈ writesOf (writeActs delay v), s.length ≤ 64) ∧
    (v.length ≤ 64 → writeActs delay v = [Action.write v]) := by
  refine ⟨?_, ?_, ?_⟩
  · rw [writesOf_writeActs]
    by_cases hv : 64 < v.length
    · simp only [hv, if_pos]
      exact slices_flatten 64 (by omega) v
    · simp [hv]
  · rw [writesOf_writeActs]
    by_cases hv : 64 < v.length
    · simp only [hv, if_pos]
      exact slices_length_le 64 v
    · simp only [hv, if_neg, if_false]
      intro s hs
      rcases List.mem_singleton.mp hs with rfl
      omega
  · intro hv
    exact writeAux_small delay (v.length + 1) v (by omega) hv

/-- C3 witness: a 70-byte sequence is reassembled exactly from its
segments, and a 10-byte sequence is sent as one single write. -/
theorem claim_C3_witness :
    (writesOf (writeActs 5 (List.replicate 70 1))).flatten = List.replicate 70 1 ∧
    writeActs 5 (List.replicate 10 2) = [Action.write (List.replicate 10 2)] :=
  ⟨(claim_C3 5 (List.replicate 70 1)).1,
    (claim_C3 5 (List.replicate 10 2)).2.2 (by simp)⟩

/-- C4 evaluated at the failing input.  Two pending requests, issued at
ticks 0 and 500, polled at tick 3000: both are older than 2000 ms, yet
the poll discards only the first.  The `for` loop iterates the list it is
popping from (lines 875–877), so after `pop(0)` the iterator's index 1
is already past the end of the one-element remainder and the second
expired entry is never examined; it survives the poll in `_waitBuffer`,
contradicting the claim that every expired request is discarded on every
poll. -/
theorem claim_C4_code_eval :
    doCheck 3000 [⟨EventCode.VOLTAGE, 1, 0⟩, ⟨EventCode.VOLTAGE, 1, 500⟩] [] [] =
      ([⟨EventCode.VOLTAGE, 1, 500⟩], [], []) := by
  decide

/-- C5: two un-expired pending requests of arities 2 and 1 in that order
with at least three buffered raw values: the poll binds the first two raw
values, in arrival order, to the first request and the third to the
second, never mixing them; and whenever the raw queue holds fewer values
than the oldest un-expired entry's arity, the walk stops without skipping
ahead to a later, already-satisfiable entry.  (The hypotheses `v1 ≤ 1000`
and `v3 ≤ 1000` keep both events clear of the click-rejection rule, which
claim C9 covers.) -/
theorem claim_C5 (c1 c2 t1 t2 now v1 v2 v3 : Nat) (rest : List Nat)
    (h1 : now - t1 ≤ 2000) (h2 : now - t2 ≤ 2000)
    (hv1 : v1 ≤ 1000) (hv3 : v3 ≤ 1000) :
    doCheck now [⟨c1, 2, t1⟩, ⟨c2, 1, t2⟩] (v1 :: v2 :: v3 :: rest) [] =
      ([⟨c1, 2, t1⟩, ⟨c2, 1, t2⟩], rest,
        [(c1, transform c1 [v1, v2]), (c2, transform c2 [v3])]) ∧
    (∀ inB : List Nat, inB.length < 2 →
      doCheck now [⟨c1, 2, t1⟩, ⟨c2, 1, t2⟩] inB [] =
        ([⟨c1, 2, t1⟩, ⟨c2, 1, t2⟩], inB, [])) := by
  constructor
  · show doCheck now [⟨c1, 2, t1⟩, ⟨c2, 1, t2⟩] (v1 :: v2 :: v3 :: rest) [] = _
    simp only [doCheck, List.append_nil, List.length_cons, List.length_nil]
    rw [walkAux_emit now 1 0 _ _ _ (by simp) (by simpa using h1) (by simp)
      (by simp; omega)]
    rw [walkAux_emit now 0 1 _ _ _ (by simp) (by simpa using h2) (by simp)
      (by simp; omega)]
    simp [walkAux]
  · intro inB hB
    simp only [doCheck, List.append_nil, List.length_cons, List.length_nil]
    rw [walkAux_break now 1 0 _ _ _ (by simp) (by simpa using h1) (by simpa using hB)]
    simp

/-- C5 witness: a click request of arity 2 and a voltage request of
arity 1, with raw values 5, 6, 7 and one extra value 8, are bound in
order; and with a single buffered value the walk stops at the arity-2
head without touching the satisfiable arity-1 entry behind it. -/
theorem claim_C5_witness :
    doCheck 100 [⟨EventCode.CLICK, 2, 100⟩, ⟨EventCode.VOLTAGE, 1, 100⟩]
        [5, 6, 7, 8] [] =
      ([⟨EventCode.CLICK, 2, 100⟩, ⟨EventCode.VOLTAGE, 1, 100⟩], [8],
        [(EventCode.CLICK, transform EventCode.CLICK [5, 6]),
          (EventCode.VOLTAGE, transform EventCode.VOLTAGE [7])]) ∧
    doCheck 100 [⟨EventCode.CLICK, 2, 100⟩, ⟨EventCode.VOLTAGE, 1, 100⟩] [9] [] =
      ([⟨EventCode.CLICK, 2, 100⟩, ⟨EventCode.VOLTAGE, 1, 100⟩], [9], []) :=
  ⟨(claim_C5 EventCode.CLICK EventCode.VOLTAGE 100 100 100 5 6 7 [8]
      (by omega) (by omega) (by omega) (by omega)).1,
    (claim_C5 EventCode.CLICK EventCode.VOLTAGE 100 100 100 5 6 7 [8]
      (by omega) (by omega) (by omega) (by omega)).2 [9] (by simp)⟩

/-- C6 evaluated at the failing input.  For a 3-byte payload with saved
delay 5 ms, the paced bulk transfer writes the 2-byte big-endian length
prefix `[0, 3]`, sleeps 200 ms, sends the payload chunked, then — where
the claim and the source's own comment ("indicater of end of it") call
for a single terminator byte — writes the TWO bytes `[12, 102]`: the
source's `b'\ff'` is the escape `\f` (form feed, 0x0C) followed by the
letter `f` (0x66), a slip for `b'\xff'`.  The trailing 40 ms sleep and
the restoration of the saved delay are as claimed. -/
theorem claim_C6_code_eval :
    sendLargeFileSlowly 5 [1, 2, 3] =
      ([Action.write [0, 3], Action.sleep 200, Action.write [1, 2, 3],
        Action.write [12, 102], Action.sleep 40], 5) := by
  decide

/-- C7: `stopRecording` releases the buffer and returns the recorder to
idle on every exit path: while idle it returns a null result without
error; with no handler it returns the full captured bytes; with a handler
it invokes the handler on the buffer contents from offset 0 and returns
the buffer size; when the handler raises, the exception propagates but
the state is idle afterwards nonetheless. -/
theorem claim_C7 :
    (∀ h, stopRecording none h = (Except.ok none, none)) ∧
    (∀ buf pos, stopRecording (some (buf, pos)) none =
      (Except.ok (some (Sum.inl buf)), none)) ∧
    (∀ buf pos handler, handler buf = Except.ok () →
      stopRecording (some (buf, pos)) (some handler) =
        (Except.ok (some (Sum.inr buf.length)), none)) ∧
    (∀ buf pos handler e, handler buf = Except.error e →
      stopRecording (some (buf, pos)) (some handler) = (Except.error e, none)) ∧
    (∀ st h, (stopRecording st h).2 = none) := by
  refine ⟨fun h => rfl, fun buf pos => rfl, ?_, ?_, ?_⟩
  · intro buf pos handler hh
    simp [stopRecording, hh]
  · intro buf pos handler e hh
    simp [stopRecording, hh]
  · intro st h
    rcases st with _ | ⟨buf, pos⟩
    · rfl
    · rcases h with _ | handler
      · rfl
      · rcases hh : handler buf with e | u <;> simp [stopRecording, hh]

/-- C7 witness: stopping with a handler that raises 7 propagates the
error 7 while the recorder is idle afterwards; stopping while idle
returns the null result. -/
theorem claim_C7_witness :
    stopRecording (some ([1, 2], 2)) (some fun _ => Except.error 7) =
      (Except.error 7, none) ∧
    stopRecording none (some fun _ => Except.error 7) = (Except.ok none, none) :=
  ⟨claim_C7.2.2.2.1 [1, 2] 2 (fun _ => Except.error 7) 7 rfl,
    claim_C7.1 (some fun _ => Except.error 7)⟩

/-- C8: `startRecording` is idempotent — calling it while recording is a
no-op that keeps the in-progress buffer, so two consecutive starts are
indistinguishable from one — and `getRecordingSize` returns 0 while idle
and the current buffer length otherwise, leaving the state unchanged.
The hypothesis `pos = buf.length` is the stream-position invariant of
every reachable recording state (a fresh buffer starts at position 0 and
`recordWrite_atEnd` shows appending preserves it); under it the `seek(0,
2)` inside `getRecordingSize` does not change the observable state. -/
theorem claim_C8 :
    (∀ st, startRecording (startRecording st) = startRecording st) ∧
    (∀ b, startRecording (some b) = some b) ∧
    getRecordingSize none = (0, none) ∧
    (∀ buf pos, pos = buf.length →
      getRecordingSize (some (buf, pos)) = (buf.length, some (buf, pos))) := by
  refine ⟨?_, fun b => rfl, rfl, ?_⟩
  · intro st
    rcases st with _ | b <;> rfl
  · intro buf pos hpos
    subst hpos
    rfl

/-- C8 witness: starting twice from idle equals starting once, and
querying the size of the recording state holding `[3, 4]` at its end
position returns 2 and leaves the state unchanged. -/
theorem claim_C8_witness :
    startRecording (startRecording none) = startRecording none ∧
    getRecordingSize (some ([3, 4], 2)) = (2, some ([3, 4], 2)) :=
  ⟨claim_C8.1 none, claim_C8.2.2.2 [3, 4] 2 rfl⟩

/-- C9: a fresh click request of arity 2 whose first correlated raw
value `x` exceeds 1000 produces no event, yet both of its raw values are
popped from the raw queue, so a later fresh request of arity 1 correlates
against the third value in arrival order. -/
theorem claim_C9 (x y c2 t1 t2 now v3 : Nat) (hx : 1000 < x)
    (h1 : now - t1 ≤ 2000) (h2 : now - t2 ≤ 2000) (hv3 : v3 ≤ 1000) :
    doCheck now [⟨EventCode.CLICK, 2, t1⟩, ⟨c2, 1, t2⟩] [x, y, v3] [] =
      ([⟨EventCode.CLICK, 2, t1⟩, ⟨c2, 1, t2⟩], [],
        [(c2, transform c2 [v3])]) := by
  simp only [doCheck, List.append_nil, List.length_cons, List.length_nil]
  rw [walkAux_reject now 1 0 _ _ _ (by simp) (by simpa using h1) (by simp)
    (by simp [EventCode.CLICK]; omega)]
  rw [walkAux_emit now 0 1 _ _ _ (by simp) (by simpa using h2) (by simp)
    (by simp; omega)]
  simp [walkAux]

/-- C9 witness: raw first value 1500 for a click request is suppressed,
its paired value 2 is consumed anyway, and the following voltage request
receives the third value 7. -/
theorem claim_C9_witness :
    doCheck 100 [⟨EventCode.CLICK, 2, 100⟩, ⟨EventCode.VOLTAGE, 1, 100⟩]
        [1500, 2, 7] [] =
      ([⟨EventCode.CLICK, 2, 100⟩, ⟨EventCode.VOLTAGE, 1, 100⟩], [],
        [(EventCode.VOLTAGE, transform EventCode.VOLTAGE [7])]) :=
  claim_C9 1500 2 EventCode.VOLTAGE 100 100 100 7 (by omega) (by omega)
    (by omega) (by omega)

/-- C10: because the encoder's integer test is the exact type check
`type(arg) is int`, a Python `bool` is never encoded with the integer
scheme: `True` is encoded as the UTF-8 bytes of `"True"` followed by one
zero byte and `False` as those of `"False"` followed by one zero byte,
i.e. the same `else` branch as any other non-bytes, non-int, non-None
value. -/
theorem claim_C10 :
    encodeArg (PyVal.vbool true) = some (utf8Bytes "True" ++ [0]) ∧
    encodeArg (PyVal.vbool false) = some (utf8Bytes "False" ++ [0]) ∧
    utf8Bytes "True" ++ [0] = [84, 114, 117, 101, 0] ∧
    utf8Bytes "False" ++ [0] = [70, 97, 108, 115, 101, 0] := by
  refine ⟨rfl, rfl, by decide, by decide⟩

end Digole
